import Mathlib

/-
Verification development for `bootstrap_linux_baseline.py`, a single-file
remote baseline-provisioning script.  The script is embedded shallowly:

* `wrapCmd` / `stdinFeed` embed `run` (lines 41-64): privilege wrapping and
  the actions performed on the remote command input stream.
* `ensure_user` (lines 66-98) is embedded as a pure function from the user
  spec and an exit-status oracle to the exact command strings issued plus
  the structured diagnostics printed.
* `ensure_authorized_keys` (lines 100-140) is embedded as a list of
  structured remote effects (`AkEffect`) together with a file-system state
  semantics `akStep`; file content is modelled as a raw string, with
  `splitLines` giving the lines `grep -qx` matches against.
* `ensure_sudo` (lines 142-169) is embedded as the list of structured
  commands issued (`SudoCmd`) plus a drop-in-file existence semantics.
* `process_host` (lines 171-188) is embedded as an event trace; whether a
  reconciler raises for a given user is abstracted by an oracle.

Config-dictionary `.get(key, default)` accesses are modelled as `Option`
fields read with `Option.getD`; Python truthiness of an optional string is
`truthyStr`.
-/

namespace Bootstrap

/-- The newline character (written in strings as `"\n"`). -/
def nlChar : Char := '\n'

/-- The single-quote character used by the shell quoting in the script. -/
def squoteChar : Char := Char.ofNat 39

/-- The double-quote character. -/
def dquoteChar : Char := Char.ofNat 34

/-- Single quote as a one-character string. -/
def squote : String := String.singleton squoteChar

/-- Double quote as a one-character string. -/
def dquote : String := String.singleton dquoteChar

/-- `authorized_keys` subsection of a user entry: the key lines and the
optional `replace` flag (absent means the dictionary key was not given). -/
structure AkSpec where
  keys : List String
  replace : Option Bool
deriving DecidableEq, Repr

/-- `sudo` subsection of a user entry: optional `nopasswd` flag. -/
structure SudoSpec where
  nopasswd : Option Bool
deriving DecidableEq, Repr

/-- One entry of `baseline_users`.  Optional fields model dictionary keys
that may be absent; the scripts reads them with `.get(key, default)`. -/
structure UserSpec where
  name : String
  shell : Option String
  home : Option String
  uid : Option Nat
  groups : List String
  create_if_missing : Option Bool
  authorized_keys : Option AkSpec
  sudo_cfg : Option SudoSpec
deriving DecidableEq, Repr

/-- A user entry with only a name, every optional field absent. -/
def mkUser (n : String) : UserSpec :=
  { name := n, shell := none, home := none, uid := none, groups := []
  , create_if_missing := none, authorized_keys := none, sudo_cfg := none }

/-- Python truthiness of an optional string: `None` and `""` are falsy. -/
def truthyStr : Option String → Bool
  | none => false
  | some s => !(s == "")

/-- The prompt-suppressing escalation wrapper `sudo -S -p <empty> ` built at
line 49 of the script. -/
def sudoSWrap : String := "sudo -S -p " ++ squote ++ squote ++ " "

/-- Command-string transformation performed by `run` (lines 47-52): with a
truthy sudo password the command is wrapped with `sudoSWrap`; otherwise it
is prefixed with a bare `sudo ` unless already so prefixed. -/
def wrapCmd (cmd : String) (sudoFlag : Bool) (sudo_password : Option String) : String :=
  if sudoFlag then
    if truthyStr sudo_password then sudoSWrap ++ cmd
    else if cmd.startsWith "sudo " then cmd else "sudo " ++ cmd
  else cmd

/-- Actions `run` performs on the remote command input stream. -/
inductive StdinAction where
  | write (s : String)
  | flush
  | closeWrite
deriving DecidableEq, Repr

/-- Input-stream actions of `run` (lines 56-59): with a truthy sudo password
the password plus newline is written and the stream flushed; nothing else is
ever done to the stream (in particular it is never closed for write). -/
def stdinFeed (sudoFlag : Bool) (sudo_password : Option String) : List StdinAction :=
  if sudoFlag && truthyStr sudo_password then
    [StdinAction.write (sudo_password.getD "" ++ "\n"), StdinAction.flush]
  else []

/-- Home directory of a user: `user.get("home", f"/home/{name}")` (line 69). -/
def homeOf (u : UserSpec) : String := u.home.getD ("/home/" ++ u.name)

/-- Shell of a user: `user.get("shell", "/bin/bash")` (line 68). -/
def shellOf (u : UserSpec) : String := u.shell.getD "/bin/bash"

/-- Account-existence probe command (line 74). -/
def probe_cmd (name : String) : String := "id -u " ++ name

/-- Creation command built at lines 80-85: home and shell always, `-u uid`
only when given, `-G groups` only when the group list is non-empty. -/
def useradd_cmd (u : UserSpec) : String :=
  let c := "useradd -m -d " ++ homeOf u ++ " -s " ++ shellOf u
  let c := match u.uid with
    | some n => c ++ " -u " ++ toString n
    | none => c
  let c := if u.groups ≠ [] then c ++ " -G " ++ String.intercalate "," u.groups else c
  c ++ " " ++ u.name

/-- Best-effort normalization command for an existing account (line 94). -/
def usermod_cmd (u : UserSpec) : String :=
  "usermod -d " ++ homeOf u ++ " -s " ++ shellOf u ++ " " ++ u.name

/-- Group-append command for an existing account (line 97). -/
def usermod_groups_cmd (u : UserSpec) : String :=
  "usermod -a -G " ++ String.intercalate "," u.groups ++ " " ++ u.name

/-- Structured diagnostics printed by `ensure_user` (stderr text elided). -/
inductive UMsg where
  | skipCreate (name : String)
  | creating (name : String)
  | createFailed (name : String)
  | created (name : String)
  | alreadyExists (name : String)
deriving DecidableEq, Repr

/-- Remote commands issued and diagnostics printed by one reconciler step. -/
structure StepTrace where
  cmds : List String
  msgs : List UMsg
deriving DecidableEq, Repr

/-- Embedding of `ensure_user` (lines 66-98).  `exec` is the exit-status
oracle for remote commands; the function returns the exact command strings
issued, in order, plus the diagnostics.  No branch of the source raises. -/
def ensure_user (u : UserSpec) (exec : String → Int) : StepTrace :=
  let probe := probe_cmd u.name
  if exec probe ≠ 0 then
    if u.create_if_missing.getD true = false then
      { cmds := [probe], msgs := [UMsg.skipCreate u.name] }
    else
      let c := useradd_cmd u
      { cmds := [probe, c]
      , msgs := [UMsg.creating u.name] ++
          (if exec c ≠ 0 then [UMsg.createFailed u.name] else [UMsg.created u.name]) }
  else
    { cmds := [probe, usermod_cmd u] ++
        (if u.groups ≠ [] then [usermod_groups_cmd u] else [])
    , msgs := [UMsg.alreadyExists u.name] }

/-- Number of command separators `;` at top level (outside single and double
quotes) of a shell command text.  A command whose interpolated values were
all quoted or escaped would keep every `;` coming from a value inside
quotes, so for the templates of this script a properly-escaped command has
no top-level `;`. -/
def topSemis : List Char → Bool → Bool → Nat
  | [], _, _ => 0
  | c :: cs, inS, inD =>
    if inS then topSemis cs (!(c == squoteChar)) inD
    else if inD then topSemis cs false (!(c == dquoteChar))
    else if c == squoteChar then topSemis cs true false
    else if c == dquoteChar then topSemis cs false true
    else if c == Char.ofNat 59 then Nat.succ (topSemis cs false false)
    else topSemis cs false false

/-- Key escaping of line 134: each single quote in the key is replaced by
the quote-close/quote-reopen sequence. -/
def escapeKey (k : String) : String :=
  k.replace squote (squote ++ dquote ++ squote ++ dquote ++ squote)

/-- The check-and-append shell text of line 135. -/
def check_cmd (k auth_file : String) : String :=
  "grep -qx " ++ squote ++ escapeKey k ++ squote ++ " " ++ auth_file ++
    " || echo " ++ squote ++ escapeKey k ++ squote ++ " >> " ++ auth_file

/-- The `bash -c` wrapping of the check-and-append text (line 136). -/
def append_shell_cmd (k auth_file : String) : String :=
  "bash -c " ++ dquote ++ check_cmd k auth_file ++ dquote

/-- The lines of a text, as `grep` sees them: split at each newline; a final
fragment not terminated by a newline is still a line; empty text has no
lines. -/
def splitLines : List Char → List (List Char)
  | [] => []
  | c :: cs =>
    if c = nlChar then [] :: splitLines cs
    else (c :: (splitLines cs).headD []) :: (splitLines cs).tail

/-- Lines of a file content string. -/
def linesOfStr (s : String) : List String :=
  (splitLines s.data).map (fun cs => String.mk cs)

/-- A file content is well formed when it is empty or newline-terminated
(the contents this script itself writes are always of this shape). -/
def WfContent (c : String) : Prop :=
  c.data = [] ∨ ∃ c1 : List Char, c.data = c1 ++ [nlChar]

/-- Semantics of the check-and-append command of line 135 on a file content:
if the key is already one of the lines the content is unchanged, otherwise
the key line is appended (`>>` also creates a missing file, whose content is
modelled as `""`). -/
def appendStep (c k : String) : String :=
  if k ∈ linesOfStr c then c else c ++ k ++ "\n"

/-- The whole append-if-absent loop of lines 133-136 on a file content. -/
def appendFold (c : String) (ks : List String) : String :=
  ks.foldl appendStep c

/-- `.ssh` directory path of a user (line 112). -/
def ssh_dir (u : UserSpec) : String := homeOf u ++ "/.ssh"

/-- `authorized_keys` path of a user (line 113). -/
def auth_file (u : UserSpec) : String := ssh_dir u ++ "/authorized_keys"

/-- The newline-joined key block with trailing newline (line 121). -/
def key_block (keys : List String) : String :=
  String.intercalate "\n" keys ++ "\n"

/-- Remote effects issued by `ensure_authorized_keys`, in source order.
`streamWrite` is the privileged `bash -c (cat > path)` of lines 124-131 fed
`input` on its input stream, which is then shut for write; `checkAppend` is
the per-key command of lines 133-136. -/
inductive AkEffect where
  | mkdirP (dir : String)
  | chownDir (owner dir : String)
  | chmodDir (mode : Nat) (dir : String)
  | streamWrite (path input : String)
  | checkAppend (path line : String)
  | chownFile (owner path : String)
  | chmodFile (mode : Nat) (path : String)
deriving DecidableEq, Repr

/-- Remote state of the one `.ssh` directory and `authorized_keys` file a
call of `ensure_authorized_keys` touches.  `none` models an attribute never
set / a file that does not exist. -/
structure FsState where
  dirExists : Bool
  dirOwner : Option String
  dirMode : Option Nat
  file : Option String
  fileOwner : Option String
  fileMode : Option Nat
deriving DecidableEq, Repr

/-- Effect semantics: `mkdir -p` creates the directory, `chown`/`chmod` set
owner and mode, an overwriting stream write (`cat > f`) replaces the file
content with exactly the streamed input, and a check-and-append behaves as
`appendStep` on the content (a missing file reads as empty and is created by
`>>`). -/
def akStep (s : FsState) : AkEffect → FsState
  | AkEffect.mkdirP _ => { s with dirExists := true }
  | AkEffect.chownDir o _ => { s with dirOwner := some o }
  | AkEffect.chmodDir m _ => { s with dirMode := some m }
  | AkEffect.streamWrite _ input => { s with file := some input }
  | AkEffect.checkAppend _ l => { s with file := some (appendStep (s.file.getD "") l) }
  | AkEffect.chownFile o _ => { s with fileOwner := some o }
  | AkEffect.chmodFile m _ => { s with fileMode := some m }

/-- Run a list of effects on a state. -/
def runAk (s : FsState) (es : List AkEffect) : FsState := es.foldl akStep s

/-- Embedding of `ensure_authorized_keys` (lines 100-140) as its effect
trace.  The function returns early when the user has no authorized-keys
spec or an empty key list; otherwise it prepares the `.ssh` directory,
writes the keys in replace mode (`replace` defaults to `True`, line 110) or
appends each absent key otherwise, and finally re-applies file ownership
and mode.  The statuses of all these commands are ignored by the source, so
the trace does not depend on an exit-status oracle. -/
def ensure_authorized_keys_effects (u : UserSpec) : List AkEffect :=
  match u.authorized_keys with
  | none => []
  | some ak =>
    if ak.keys = [] then []
    else
      let d := ssh_dir u
      let f := auth_file u
      [AkEffect.mkdirP d, AkEffect.chownDir u.name d, AkEffect.chmodDir 700 d]
      ++ (if ak.replace.getD true then [AkEffect.streamWrite f (key_block ak.keys)]
          else ak.keys.map (AkEffect.checkAppend f))
      ++ [AkEffect.chownFile u.name f, AkEffect.chmodFile 600 f]

/-- Effects that write to the `authorized_keys` file. -/
def isFileWrite : AkEffect → Bool
  | AkEffect.streamWrite _ _ => true
  | AkEffect.checkAppend _ _ => true
  | _ => false

/-- Sudoers drop-in path of a user (line 153). -/
def sudo_file (name : String) : String := "/etc/sudoers.d/90-" ++ name ++ "-bootstrap"

/-- The one policy line written to the drop-in (line 154). -/
def sudo_line (name : String) : String := name ++ " ALL=(ALL) NOPASSWD:ALL\n"

/-- Commands issued by `ensure_sudo`, in source order. -/
inductive SudoCmd where
  | writePolicy (name : String)
  | chmodPolicy (name : String)
  | validate (name : String)
  | removePolicy (name : String)
deriving DecidableEq, Repr

/-- The shell text of each `ensure_sudo` command (lines 156, 162, 164, 167);
the write embeds the policy line right-stripped of its newline. -/
def renderSudoCmd : SudoCmd → String
  | SudoCmd.writePolicy n =>
      "bash -c " ++ squote ++ "echo " ++ dquote ++ n ++ " ALL=(ALL) NOPASSWD:ALL" ++
        dquote ++ " > " ++ sudo_file n ++ squote
  | SudoCmd.chmodPolicy n => "chmod 440 " ++ sudo_file n
  | SudoCmd.validate n => "visudo -cf " ++ sudo_file n
  | SudoCmd.removePolicy n => "rm -f " ++ sudo_file n

/-- Embedding of `ensure_sudo` (lines 142-169) as the commands it issues,
given an exit-status oracle.  No-op unless the sudo spec requests
`nopasswd` (default `False`, line 148).  A failed write returns early; the
chmod status is ignored; a failed validation triggers the `rm -f`. -/
def ensure_sudo_trace (u : UserSpec) (exec : SudoCmd → Int) : List SudoCmd :=
  match u.sudo_cfg with
  | none => []
  | some sc =>
    if sc.nopasswd.getD false = false then []
    else
      let w := SudoCmd.writePolicy u.name
      if exec w ≠ 0 then [w]
      else if exec (SudoCmd.validate u.name) ≠ 0 then
        [w, SudoCmd.chmodPolicy u.name, SudoCmd.validate u.name, SudoCmd.removePolicy u.name]
      else
        [w, SudoCmd.chmodPolicy u.name, SudoCmd.validate u.name]

/-- Drop-in-file existence semantics of one sudo command: a successful write
creates (or overwrites) the file, a failed write leaves the previous state,
`rm -f` removes the file, chmod and validation do not change existence. -/
def sudoStep (exec : SudoCmd → Int) (b : Bool) : SudoCmd → Bool
  | SudoCmd.writePolicy n => if exec (SudoCmd.writePolicy n) = 0 then true else b
  | SudoCmd.removePolicy _ => false
  | _ => b

/-- Whether the drop-in file exists after `ensure_sudo`, starting from
existence state `init` (a previous run may have left the file in place). -/
def sudoFileAfter (exec : SudoCmd → Int) (init : Bool) (u : UserSpec) : Bool :=
  (ensure_sudo_trace u exec).foldl (sudoStep exec) init

/-- Events of `process_host` (lines 171-188). -/
inductive Event where
  | connectFail
  | connected
  | handleUser (name : String)
  | usersError
  | closeChannel
deriving DecidableEq, Repr

/-- The user loop of lines 180-184 inside the `try` of line 179: each user
is announced and its three reconcilers run; `raises` abstracts whether some
reconciler raises for that user, which aborts the loop.  Returns the events
and whether an exception escaped the loop. -/
def handleUsers : List UserSpec → (String → Bool) → List Event × Bool
  | [], _ => ([], false)
  | u :: rest, raises =>
    if raises u.name then ([Event.handleUser u.name], true)
    else
      let p := handleUsers rest raises
      (Event.handleUser u.name :: p.1, p.2)

/-- Embedding of `process_host` (lines 171-188): on connection failure only
a report; otherwise the user loop runs inside `try`, an escaping exception
is caught and reported by the `except` of line 185, and the `finally` of
line 187 closes the channel on both paths. -/
def process_host (connectOk : Bool) (users : List UserSpec) (raises : String → Bool) :
    List Event :=
  if connectOk then
    let p := handleUsers users raises
    Event.connected :: p.1 ++ (if p.2 then [Event.usersError] else []) ++ [Event.closeChannel]
  else
    [Event.connectFail]

/-! ### Helper lemmas about lines, counting and effect folds -/

lemma splitLines_cons_nl (cs : List Char) :
    splitLines (nlChar :: cs) = [] :: splitLines cs := by
  simp [splitLines]

lemma splitLines_cons (c : Char) (cs : List Char) (hc : ¬ c = nlChar) :
    splitLines (c :: cs) = (c :: (splitLines cs).headD []) :: (splitLines cs).tail := by
  simp [splitLines, hc]

lemma splitLines_ne_nil (c : Char) (cs : List Char) : splitLines (c :: cs) ≠ [] := by
  by_cases hc : c = nlChar
  · subst hc; rw [splitLines_cons_nl]; simp
  · rw [splitLines_cons c cs hc]; simp

lemma splitLines_line (k : List Char) (hk : nlChar ∉ k) :
    splitLines (k ++ [nlChar]) = [k] := by
  induction k with
  | nil => simp [splitLines]
  | cons c cs ih =>
      have hc : ¬ c = nlChar := fun h => hk (by simp [h])
      have hcs : nlChar ∉ cs := fun h => hk (by simp [h])
      rw [List.cons_append, splitLines_cons c _ hc, ih hcs]
      simp

lemma splitLines_append (c1 k : List Char) (hk : nlChar ∉ k) :
    splitLines (c1 ++ [nlChar] ++ (k ++ [nlChar])) = splitLines (c1 ++ [nlChar]) ++ [k] := by
  induction c1 with
  | nil =>
      simp only [List.nil_append, List.cons_append]
      rw [splitLines_cons_nl, splitLines_line k hk, splitLines_cons_nl]
      simp [splitLines]
  | cons ch cs ih =>
      by_cases hch : ch = nlChar
      · subst hch
        simp only [List.cons_append]
        rw [splitLines_cons_nl, splitLines_cons_nl, ih, List.cons_append]
      · obtain ⟨l, ls, hls⟩ : ∃ l ls, splitLines (cs ++ [nlChar]) = l :: ls := by
          cases h : splitLines (cs ++ [nlChar]) with
          | nil =>
              cases hcs : cs ++ [nlChar] with
              | nil => simp at hcs
              | cons a t => rw [hcs] at h; exact absurd h (splitLines_ne_nil a t)
          | cons l ls => exact ⟨l, ls, rfl⟩
        simp only [List.cons_append]
        rw [splitLines_cons ch _ hch, splitLines_cons ch _ hch, ih, hls]
        simp

lemma data_nl : ("\n" : String).data = [nlChar] := by decide

lemma linesOfStr_terminated_append (c k : String)
    (hw : WfContent c) (hk : nlChar ∉ k.data) :
    linesOfStr (c ++ k ++ "\n") = linesOfStr c ++ [k] := by
  rcases hw with h | ⟨c1, h⟩
  · have hdata : (c ++ k ++ "\n").data = k.data ++ [nlChar] := by
      simp [String.data_append, h, data_nl, nlChar]
    rw [linesOfStr, hdata, splitLines_line k.data hk, linesOfStr, h]
    simp [splitLines]
  · have hdata : (c ++ k ++ "\n").data = c1 ++ [nlChar] ++ (k.data ++ [nlChar]) := by
      simp [String.data_append, h, data_nl, nlChar]
    rw [linesOfStr, hdata, splitLines_append c1 k.data hk, linesOfStr, h]
    simp

lemma wfContent_terminated_append (c k : String) : WfContent (c ++ k ++ "\n") :=
  Or.inr ⟨c.data ++ k.data, by simp [String.data_append, data_nl, nlChar]⟩

lemma linesOfStr_appendStep (c k : String) (hw : WfContent c) (hk : nlChar ∉ k.data) :
    linesOfStr (appendStep c k) =
      if k ∈ linesOfStr c then linesOfStr c else linesOfStr c ++ [k] := by
  unfold appendStep
  split
  · rfl
  · exact linesOfStr_terminated_append c k hw hk

lemma wfContent_appendStep (c k : String) (hw : WfContent c) :
    WfContent (appendStep c k) := by
  unfold appendStep
  split
  · exact hw
  · exact wfContent_terminated_append c k

lemma appendFold_count_of_pos (x : String) :
    ∀ (ks : List String) (c : String), WfContent c → (∀ j ∈ ks, nlChar ∉ j.data) →
      0 < (linesOfStr c).count x →
      (linesOfStr (appendFold c ks)).count x = (linesOfStr c).count x := by
  intro ks
  induction ks with
  | nil => intro c _ _ _; rfl
  | cons k t ih =>
      intro c hw hks hpos
      have hk : nlChar ∉ k.data := hks k (by simp)
      have ht : ∀ j ∈ t, nlChar ∉ j.data := fun j hj => hks j (by simp [hj])
      have hstep := linesOfStr_appendStep c k hw hk
      have hwf2 := wfContent_appendStep c k hw
      show (linesOfStr (appendFold (appendStep c k) t)).count x = _
      by_cases hmem : k ∈ linesOfStr c
      · rw [ih (appendStep c k) hwf2 ht (by rw [hstep, if_pos hmem]; exact hpos),
          hstep, if_pos hmem]
      · have hkx : ¬ k = x := fun h =>
          hmem (h ▸ List.count_pos_iff.mp hpos)
        have hcount2 : (linesOfStr (appendStep c k)).count x = (linesOfStr c).count x := by
          rw [hstep, if_neg hmem, List.count_append]
          simp [List.count_singleton', hkx]
        rw [ih (appendStep c k) hwf2 ht (by rw [hcount2]; exact hpos), hcount2]

lemma appendFold_count_eq_one (x : String) :
    ∀ (ks : List String) (c : String), WfContent c → (∀ j ∈ ks, nlChar ∉ j.data) →
      x ∈ ks → (linesOfStr c).count x ≤ 1 →
      (linesOfStr (appendFold c ks)).count x = 1 := by
  intro ks
  induction ks with
  | nil => intro c _ _ hmem; simp at hmem
  | cons k t ih =>
      intro c hw hks hmem hle
      have hk : nlChar ∉ k.data := hks k (by simp)
      have ht : ∀ j ∈ t, nlChar ∉ j.data := fun j hj => hks j (by simp [hj])
      have hstep := linesOfStr_appendStep c k hw hk
      have hwf2 := wfContent_appendStep c k hw
      rcases Nat.lt_or_ge ((linesOfStr c).count x) 1 with h0 | h1
      · have h0 : (linesOfStr c).count x = 0 := Nat.lt_one_iff.mp h0
        have hxnot : x ∉ linesOfStr c := List.count_eq_zero.mp h0
        by_cases hkx : k = x
        · subst hkx
          have hone : (linesOfStr (appendStep c k)).count k = 1 := by
            rw [hstep, if_neg hxnot, List.count_append, h0, List.count_singleton']
            simp
          show (linesOfStr (appendFold (appendStep c k) t)).count k = 1
          rw [appendFold_count_of_pos k t (appendStep c k) hwf2 ht (by omega), hone]
        · have hmt : x ∈ t := by
            rcases List.mem_cons.mp hmem with h | h
            · exact absurd h.symm hkx
            · exact h
          have hz : (linesOfStr (appendStep c k)).count x = 0 := by
            by_cases hmem2 : k ∈ linesOfStr c
            · rw [hstep, if_pos hmem2]; exact h0
            · rw [hstep, if_neg hmem2, List.count_append, h0, List.count_singleton']
              simp [hkx]
          exact ih (appendStep c k) hwf2 ht hmt (by omega)
      · have heq : (linesOfStr c).count x = 1 := Nat.le_antisymm hle h1
        rw [appendFold_count_of_pos x (k :: t) c hw hks (by omega), heq]

lemma runAk_append (s : FsState) (l1 l2 : List AkEffect) :
    runAk s (l1 ++ l2) = runAk (runAk s l1) l2 := by
  simp [runAk]

lemma runAk_checkAppend_file (f : String) :
    ∀ (ks : List String) (s : FsState), ks ≠ [] →
      (runAk s (ks.map (AkEffect.checkAppend f))).file =
        some (appendFold (s.file.getD "") ks) := by
  intro ks
  induction ks with
  | nil => intro s h; exact absurd rfl h
  | cons k t ih =>
      intro s _
      cases ht : t with
      | nil => simp [runAk, akStep, appendFold]
      | cons a r =>
          have h2 := ih (akStep s (AkEffect.checkAppend f k)) (by simp [ht])
          rw [ht] at h2
          show (runAk (akStep s (AkEffect.checkAppend f k))
              ((a :: r).map (AkEffect.checkAppend f))).file = _
          rw [h2]
          simp [akStep, appendFold]

lemma runAk_checkAppend_meta (f : String) :
    ∀ (ks : List String) (s : FsState),
      (runAk s (ks.map (AkEffect.checkAppend f))).dirExists = s.dirExists ∧
      (runAk s (ks.map (AkEffect.checkAppend f))).dirOwner = s.dirOwner ∧
      (runAk s (ks.map (AkEffect.checkAppend f))).dirMode = s.dirMode ∧
      (runAk s (ks.map (AkEffect.checkAppend f))).fileOwner = s.fileOwner ∧
      (runAk s (ks.map (AkEffect.checkAppend f))).fileMode = s.fileMode := by
  intro ks
  induction ks with
  | nil => intro s; exact ⟨rfl, rfl, rfl, rfl, rfl⟩
  | cons k t ih =>
      intro s
      have h2 := ih (akStep s (AkEffect.checkAppend f k))
      simpa [akStep] using h2

/-! ### Concrete fixtures used by witnesses and counterexamples -/

/-- A user entry whose name contains a shell metacharacter. -/
def uEvil : UserSpec := mkUser "a;b"

/-- A user with `create_if_missing: false`. -/
def uCarol : UserSpec := { mkUser "carol" with create_if_missing := some false }

/-- A user with replace-mode key list `[C]`. -/
def uKeysC : UserSpec := { mkUser "dave" with authorized_keys := some ⟨["C"], some true⟩ }

/-- A user with key list `[C]` and no `replace` flag in its spec. -/
def uDefC : UserSpec := { mkUser "erin" with authorized_keys := some ⟨["C"], none⟩ }

/-- A user with append-mode key list `[A, B]`. -/
def uAppendAB : UserSpec :=
  { mkUser "frank" with authorized_keys := some ⟨["A", "B"], some false⟩ }

/-- A user requesting passwordless sudo. -/
def uAliceSudo : UserSpec := { mkUser "alice" with sudo_cfg := some ⟨some true⟩ }

/-- A plain user named alice. -/
def uAlice : UserSpec := mkUser "alice"

/-- A plain user named bob. -/
def uBob : UserSpec := mkUser "bob"

/-- Exit-status oracle under which every remote command fails. -/
def execOne : String → Int := fun _ => 1

/-- Sudo-command oracle under which every command succeeds. -/
def sexecZero : SudoCmd → Int := fun _ => 0

/-- Sudo-command oracle: the policy write fails, everything else succeeds. -/
def sexecWriteFails : SudoCmd → Int := fun c =>
  match c with
  | SudoCmd.writePolicy _ => 1
  | _ => 0

/-- Raise oracle: some reconciler raises exactly for user alice. -/
def raisesAlice : String → Bool := fun n => n == "alice"

/-- Initial remote state where the authorized-keys file already holds the
lines A and B. -/
def s0AB : FsState := ⟨true, none, none, some "A\nB\n", none, none⟩

/-- Initial remote state where the authorized-keys file already holds the
line A. -/
def s0A : FsState := ⟨true, none, none, some "A\n", none, none⟩

/-! ### Shared facts about the replace branch of `ensure_authorized_keys` -/

lemma replace_effects (u : UserSpec) (ak : AkSpec) (h1 : u.authorized_keys = some ak)
    (h2 : ak.keys ≠ []) (h3 : ak.replace.getD true = true) :
    ensure_authorized_keys_effects u =
      [AkEffect.mkdirP (ssh_dir u), AkEffect.chownDir u.name (ssh_dir u),
       AkEffect.chmodDir 700 (ssh_dir u),
       AkEffect.streamWrite (auth_file u) (key_block ak.keys),
       AkEffect.chownFile u.name (auth_file u), AkEffect.chmodFile 600 (auth_file u)] := by
  simp [ensure_authorized_keys_effects, h1, h2, h3]

lemma replace_final_file (u : UserSpec) (ak : AkSpec) (h1 : u.authorized_keys = some ak)
    (h2 : ak.keys ≠ []) (h3 : ak.replace.getD true = true) (s : FsState) :
    (runAk s (ensure_authorized_keys_effects u)).file = some (key_block ak.keys) := by
  rw [replace_effects u ak h1 h2 h3]
  simp [runAk, akStep]

lemma append_effects (u : UserSpec) (ak : AkSpec) (h1 : u.authorized_keys = some ak)
    (h2 : ak.keys ≠ []) (h3 : ak.replace.getD true = false) :
    ensure_authorized_keys_effects u =
      [AkEffect.mkdirP (ssh_dir u), AkEffect.chownDir u.name (ssh_dir u),
       AkEffect.chmodDir 700 (ssh_dir u)]
      ++ ak.keys.map (AkEffect.checkAppend (auth_file u))
      ++ [AkEffect.chownFile u.name (auth_file u), AkEffect.chmodFile 600 (auth_file u)] := by
  simp [ensure_authorized_keys_effects, h1, h2, h3]

/-! ### Claims -/

/-- C3: for a non-empty key list in replace mode, the reconciler issues a
single overwriting write to the authorized-keys file, streaming exactly the
newline-joined key block with trailing newline, and the final file content
equals that block whatever the previous content was. -/
theorem C3_theorem (u : UserSpec) (ak : AkSpec) (h1 : u.authorized_keys = some ak)
    (h2 : ak.keys ≠ []) (h3 : ak.replace.getD true = true) :
    (ensure_authorized_keys_effects u).filter isFileWrite
        = [AkEffect.streamWrite (auth_file u) (key_block ak.keys)] ∧
    ∀ s : FsState,
      (runAk s (ensure_authorized_keys_effects u)).file = some (key_block ak.keys) := by
  constructor
  · rw [replace_effects u ak h1 h2 h3]
    simp [isFileWrite]
  · exact replace_final_file u ak h1 h2 h3

/-- Witness for C3: replacing with key list `[C]` over a file that held A
and B leaves exactly the content `C` plus newline. -/
theorem C3_witness :
    (runAk s0AB (ensure_authorized_keys_effects uKeysC)).file = some "C\n" := by
  rw [(C3_theorem uKeysC ⟨["C"], some true⟩ rfl (by decide) (by decide)).2 s0AB]
  decide

/-- C10: an authorized-keys spec that omits the `replace` flag behaves in
replace mode: the trace is the overwriting one and the final content is
exactly the configured key block, discarding any pre-existing lines. -/
theorem C10_theorem (u : UserSpec) (ak : AkSpec) (h1 : u.authorized_keys = some ak)
    (h2 : ak.replace = none) (h3 : ak.keys ≠ []) :
    ensure_authorized_keys_effects u =
      [AkEffect.mkdirP (ssh_dir u), AkEffect.chownDir u.name (ssh_dir u),
       AkEffect.chmodDir 700 (ssh_dir u),
       AkEffect.streamWrite (auth_file u) (key_block ak.keys),
       AkEffect.chownFile u.name (auth_file u), AkEffect.chmodFile 600 (auth_file u)] ∧
    ∀ s : FsState,
      (runAk s (ensure_authorized_keys_effects u)).file = some (key_block ak.keys) := by
  have h3r : ak.replace.getD true = true := by rw [h2]; rfl
  exact ⟨replace_effects u ak h1 h3 h3r, replace_final_file u ak h1 h3 h3r⟩

/-- Witness for C10: key list `[C]` with no `replace` flag over a file that
held A and B leaves exactly `C` plus newline. -/
theorem C10_witness :
    (runAk s0AB (ensure_authorized_keys_effects uDefC)).file = some "C\n" := by
  rw [(C10_theorem uDefC ⟨["C"], none⟩ rfl rfl (by decide)).2 s0AB]
  decide

/-- C8: for a non-empty key list, in either mode, the reconciliation leaves
the `.ssh` directory with mode 700 and the authorized-keys file with mode
600, both owned by the target account, from any initial state. -/
theorem C8_theorem (u : UserSpec) (ak : AkSpec) (h1 : u.authorized_keys = some ak)
    (h2 : ak.keys ≠ []) (s : FsState) :
    (runAk s (ensure_authorized_keys_effects u)).dirMode = some 700 ∧
    (runAk s (ensure_authorized_keys_effects u)).dirOwner = some u.name ∧
    (runAk s (ensure_authorized_keys_effects u)).fileMode = some 600 ∧
    (runAk s (ensure_authorized_keys_effects u)).fileOwner = some u.name := by
  by_cases hr : ak.replace.getD true = true
  · rw [replace_effects u ak h1 h2 hr]
    simp [runAk, akStep]
  · have hr2 : ak.replace.getD true = false := by
      cases h : ak.replace.getD true
      · rfl
      · exact absurd h hr
    rw [append_effects u ak h1 h2 hr2, runAk_append, runAk_append]
    obtain ⟨hE, hO, hM, hFO, hFM⟩ :=
      runAk_checkAppend_meta (auth_file u) ak.keys
        (runAk s [AkEffect.mkdirP (ssh_dir u), AkEffect.chownDir u.name (ssh_dir u),
          AkEffect.chmodDir 700 (ssh_dir u)])
    have hsuf1 : ∀ X : FsState,
        (runAk X [AkEffect.chownFile u.name (auth_file u),
          AkEffect.chmodFile 600 (auth_file u)]).dirMode = X.dirMode := by
      intro X; simp [runAk, akStep]
    have hsuf2 : ∀ X : FsState,
        (runAk X [AkEffect.chownFile u.name (auth_file u),
          AkEffect.chmodFile 600 (auth_file u)]).dirOwner = X.dirOwner := by
      intro X; simp [runAk, akStep]
    have hsuf3 : ∀ X : FsState,
        (runAk X [AkEffect.chownFile u.name (auth_file u),
          AkEffect.chmodFile 600 (auth_file u)]).fileMode = some 600 := by
      intro X; simp [runAk, akStep]
    have hsuf4 : ∀ X : FsState,
        (runAk X [AkEffect.chownFile u.name (auth_file u),
          AkEffect.chmodFile 600 (auth_file u)]).fileOwner = some u.name := by
      intro X; simp [runAk, akStep]
    have hpre1 : (runAk s [AkEffect.mkdirP (ssh_dir u), AkEffect.chownDir u.name (ssh_dir u),
        AkEffect.chmodDir 700 (ssh_dir u)]).dirMode = some 700 := by
      simp [runAk, akStep]
    have hpre2 : (runAk s [AkEffect.mkdirP (ssh_dir u), AkEffect.chownDir u.name (ssh_dir u),
        AkEffect.chmodDir 700 (ssh_dir u)]).dirOwner = some u.name := by
      simp [runAk, akStep]
    exact ⟨by rw [hsuf1, hM, hpre1], by rw [hsuf2, hO, hpre2],
      by rw [hsuf3], by rw [hsuf4]⟩

/-- Witness for C8: the append-mode fixture ends with directory mode 700,
file mode 600 and both owned by the account. -/
theorem C8_witness :
    (runAk s0A (ensure_authorized_keys_effects uAppendAB)).dirMode = some 700 ∧
    (runAk s0A (ensure_authorized_keys_effects uAppendAB)).dirOwner = some uAppendAB.name ∧
    (runAk s0A (ensure_authorized_keys_effects uAppendAB)).fileMode = some 600 ∧
    (runAk s0A (ensure_authorized_keys_effects uAppendAB)).fileOwner = some uAppendAB.name :=
  C8_theorem uAppendAB ⟨["A", "B"], some false⟩ rfl (by decide) s0A

/-- C6: in append-if-absent mode each key is appended only when no identical
line exists, so a key occurring at most once beforehand occurs exactly once
afterwards (in particular a key already present is not duplicated and a new
key is appended once). -/
theorem C6_theorem (u : UserSpec) (ak : AkSpec) (k : String) (s : FsState)
    (h1 : u.authorized_keys = some ak) (h2 : ak.replace.getD true = false)
    (hk : k ∈ ak.keys) (hnl : ∀ j ∈ ak.keys, nlChar ∉ j.data)
    (hw : WfContent (s.file.getD "")) (hc : (linesOfStr (s.file.getD "")).count k ≤ 1) :
    (runAk s (ensure_authorized_keys_effects u)).file
        = some (appendFold (s.file.getD "") ak.keys) ∧
    (linesOfStr (appendFold (s.file.getD "") ak.keys)).count k = 1 := by
  have hne : ak.keys ≠ [] := by
    intro h
    rw [h] at hk
    simp at hk
  constructor
  · rw [append_effects u ak h1 hne h2, runAk_append, runAk_append]
    have hfileA :
        (runAk s [AkEffect.mkdirP (ssh_dir u), AkEffect.chownDir u.name (ssh_dir u),
          AkEffect.chmodDir 700 (ssh_dir u)]).file = s.file := by
      simp [runAk, akStep]
    have hmid := runAk_checkAppend_file (auth_file u) ak.keys
      (runAk s [AkEffect.mkdirP (ssh_dir u), AkEffect.chownDir u.name (ssh_dir u),
        AkEffect.chmodDir 700 (ssh_dir u)]) hne
    rw [hfileA] at hmid
    have hsuf : ∀ X : FsState,
        (runAk X [AkEffect.chownFile u.name (auth_file u),
          AkEffect.chmodFile 600 (auth_file u)]).file = X.file := by
      intro X; simp [runAk, akStep]
    rw [hsuf, hmid]
  · exact appendFold_count_eq_one k ak.keys _ hw hnl hk hc

/-- Witness for C6: appending `[A, B]` to a file already holding the line A
leaves content whose lines hold A exactly once (and B appended once). -/
theorem C6_witness :
    (runAk s0A (ensure_authorized_keys_effects uAppendAB)).file = some "A\nB\n" ∧
    (linesOfStr "A\nB\n").count "A" = 1 := by
  have h := C6_theorem uAppendAB ⟨["A", "B"], some false⟩ "A" s0A rfl (by decide)
    (by decide) (by decide) (Or.inr ⟨("A").data, by decide⟩) (by decide)
  refine ⟨?_, by decide⟩
  rw [h.1]
  decide

/-- C7: when the existence probe fails and `create_if_missing` is false, the
account step issues only the read-only probe (no creation or modification
command), emits the skip diagnostic, and completes without failure. -/
theorem C7_theorem (u : UserSpec) (exec : String → Int)
    (h1 : exec (probe_cmd u.name) ≠ 0) (h2 : u.create_if_missing.getD true = false) :
    ensure_user u exec =
      { cmds := [probe_cmd u.name], msgs := [UMsg.skipCreate u.name] } := by
  simp [ensure_user, h1, h2]

/-- Witness for C7: a concrete user with `create_if_missing: false` under an
all-failing oracle issues only the probe. -/
theorem C7_witness :
    ensure_user uCarol execOne =
      { cmds := [probe_cmd uCarol.name], msgs := [UMsg.skipCreate uCarol.name] } :=
  C7_theorem uCarol execOne (by decide) (by decide)

/-- C4 fails as stated: were every interpolated value quoted or escaped, no
command issued by `ensure_user` could contain a top-level command separator
coming from a value; the user named `a;b` produces a probe command with a
top-level `;`. -/
theorem C4_counterexample :
    ¬ (∀ (u : UserSpec) (exec : String → Int),
        ∀ c ∈ (ensure_user u exec).cmds, topSemis c.data false false = 0) := by
  intro h
  have hmem : probe_cmd uEvil.name ∈ (ensure_user uEvil execOne).cmds := by decide
  exact absurd (h uEvil execOne (probe_cmd uEvil.name) hmem) (by decide)

/-- C4 (amended): only key material in append-if-absent mode is escaped
(single quotes rewritten by `escapeKey` and the result wrapped in single
quotes); account names are interpolated verbatim into the probe, so a name
holding a metacharacter changes the command structure. -/
theorem C4_theorem :
    (∀ n : String, probe_cmd n = "id -u " ++ n) ∧
    (∀ k f : String, check_cmd k f =
        "grep -qx " ++ squote ++ escapeKey k ++ squote ++ " " ++ f ++
          " || echo " ++ squote ++ escapeKey k ++ squote ++ " >> " ++ f) ∧
    (∃ n : String, 0 < topSemis (probe_cmd n).data false false) :=
  ⟨fun _ => rfl, fun _ _ => rfl, ⟨"a;b", by decide⟩⟩

/-- C5 fails as stated: with a known (non-empty) escalation secret, `run`
never closes the command input stream for write. -/
theorem C5_counterexample :
    ¬ (∀ s : String, s ≠ "" → StdinAction.closeWrite ∈ stdinFeed true (some s)) := by
  intro h
  exact absurd (h "pw" (by decide)) (by decide)

/-- C5 (amended): with a non-empty secret the privileged command is wrapped
with the prompt-suppressing `sudo -S -p` prefix and the secret plus newline
is written to the input stream, which is flushed but left open (not closed
for write); with no secret nothing is fed and the command is prefixed with
a bare `sudo ` unless already so prefixed. -/
theorem C5_theorem (cmd s : String) :
    (s ≠ "" →
      wrapCmd cmd true (some s) = sudoSWrap ++ cmd ∧
      stdinFeed true (some s) = [StdinAction.write (s ++ "\n"), StdinAction.flush] ∧
      StdinAction.closeWrite ∉ stdinFeed true (some s)) ∧
    wrapCmd cmd true none = (if cmd.startsWith "sudo " then cmd else "sudo " ++ cmd) ∧
    stdinFeed true none = [] := by
  refine ⟨fun hs => ?_, ?_, ?_⟩
  · have ht : truthyStr (some s) = true := by simp [truthyStr, hs]
    exact ⟨by simp [wrapCmd, ht], by simp [stdinFeed, ht], by simp [stdinFeed, ht]⟩
  · simp [wrapCmd, truthyStr]
  · simp [stdinFeed, truthyStr]

/-- A concrete command used by the C5 witness. -/
def exCmd : String := "ls"

/-- A concrete secret used by the C5 witness. -/
def exPw : String := "pw"

/-- Witness for C5: concrete command and secret. -/
theorem C5_witness :
    wrapCmd exCmd true (some exPw) = sudoSWrap ++ exCmd ∧
    stdinFeed true (some exPw) = [StdinAction.write (exPw ++ "\n"), StdinAction.flush] ∧
    StdinAction.closeWrite ∉ stdinFeed true (some exPw) :=
  (C5_theorem exCmd exPw).1 (by decide)

/-- C2 fails as stated: if the policy write fails while a drop-in from an
earlier run is still on disk, `ensure_sudo` returns early, validation never
runs (so never returned success), yet the file still exists. -/
theorem C2_counterexample :
    ¬ (∀ (u : UserSpec) (sc : SudoSpec) (exec : SudoCmd → Int) (init : Bool),
        u.sudo_cfg = some sc → sc.nopasswd.getD false = true →
        (sudoFileAfter exec init u = true ↔
          (SudoCmd.validate u.name ∈ ensure_sudo_trace u exec ∧
            exec (SudoCmd.validate u.name) = 0))) := by
  intro h
  have := h uAliceSudo ⟨some true⟩ sexecWriteFails true rfl rfl
  revert this
  decide

/-- C2 (amended): provided the policy write succeeds (or no file existed
beforehand), the drop-in exists after the step iff the validation command on
its exact path ran and returned success; whenever validation runs and
returns non-zero, the `rm -f` on that path is issued in the same step. -/
theorem C2_theorem (u : UserSpec) (sc : SudoSpec) (exec : SudoCmd → Int) (init : Bool)
    (h1 : u.sudo_cfg = some sc) (h2 : sc.nopasswd.getD false = true)
    (h3 : exec (SudoCmd.writePolicy u.name) = 0 ∨ init = false) :
    (sudoFileAfter exec init u = true ↔
      (SudoCmd.validate u.name ∈ ensure_sudo_trace u exec ∧
        exec (SudoCmd.validate u.name) = 0)) ∧
    (SudoCmd.validate u.name ∈ ensure_sudo_trace u exec →
      exec (SudoCmd.validate u.name) ≠ 0 →
      SudoCmd.removePolicy u.name ∈ ensure_sudo_trace u exec) ∧
    renderSudoCmd (SudoCmd.validate u.name) = "visudo -cf " ++ sudo_file u.name ∧
    renderSudoCmd (SudoCmd.removePolicy u.name) = "rm -f " ++ sudo_file u.name := by
  by_cases hw : exec (SudoCmd.writePolicy u.name) = 0
  · by_cases hv : exec (SudoCmd.validate u.name) = 0
    · have htr : ensure_sudo_trace u exec =
          [SudoCmd.writePolicy u.name, SudoCmd.chmodPolicy u.name,
            SudoCmd.validate u.name] := by
        simp [ensure_sudo_trace, h1, h2, hw, hv]
      refine ⟨?_, fun _ hvne => absurd hv hvne, rfl, rfl⟩
      rw [sudoFileAfter, htr]
      simp [sudoStep, hw, hv]
    · have htr : ensure_sudo_trace u exec =
          [SudoCmd.writePolicy u.name, SudoCmd.chmodPolicy u.name,
            SudoCmd.validate u.name, SudoCmd.removePolicy u.name] := by
        simp [ensure_sudo_trace, h1, h2, hw, hv]
      refine ⟨?_, fun _ _ => by rw [htr]; simp, rfl, rfl⟩
      rw [sudoFileAfter, htr]
      simp [sudoStep, hw, hv]
  · have hinit : init = false := h3.resolve_left hw
    have htr : ensure_sudo_trace u exec = [SudoCmd.writePolicy u.name] := by
      simp [ensure_sudo_trace, h1, h2, hw]
    subst hinit
    refine ⟨?_, fun hmem _ => ?_, rfl, rfl⟩
    · rw [sudoFileAfter, htr]
      simp [sudoStep, hw]
    · rw [htr] at hmem
      simp at hmem

/-- Witness for C2: all commands succeed starting from no file, so the
drop-in exists after the step. -/
theorem C2_witness : sudoFileAfter sexecZero false uAliceSudo = true :=
  ((C2_theorem uAliceSudo ⟨some true⟩ sexecZero false rfl rfl (Or.inl rfl)).1).mpr
    (by decide)

/-- The user loop stops at the first user for which a reconciler raises:
the handled users are exactly the non-raising prefix plus the raising one,
and the loop reports that an exception escaped. -/
lemma handleUsers_stopsAtRaise (pre : List UserSpec) (u : UserSpec) (post : List UserSpec)
    (raises : String → Bool) :
    (∀ v ∈ pre, raises v.name = false) → raises u.name = true →
    handleUsers (pre ++ u :: post) raises =
      (pre.map (fun v => Event.handleUser v.name) ++ [Event.handleUser u.name], true) := by
  induction pre with
  | nil => intro _ hu; simp [handleUsers, hu]
  | cons v t ih =>
      intro hpre hu
      have hv : raises v.name = false := hpre v (by simp)
      have ht : ∀ w ∈ t, raises w.name = false := fun w hw => hpre w (by simp [hw])
      simp [handleUsers, hv, ih ht hu]

/-- C1 fails as stated: with users alice then bob and a reconciler raising
for alice, bob is never handled. -/
theorem C1_counterexample :
    ¬ (∀ (users : List UserSpec) (raises : String → Bool) (u : UserSpec),
        u ∈ users → Event.handleUser u.name ∈ process_host true users raises) := by
  intro h
  have hmem : uBob ∈ [uAlice, uBob] := by decide
  have := h [uAlice, uBob] raisesAlice uBob hmem
  revert this
  decide

/-- C1 (amended): an exception raised while reconciling one user is caught
at host scope and reported, and the channel is still closed; but the users
after the raising one are skipped — the host trace is exactly the
non-raising prefix, the raising user, the error report and the close. -/
theorem C1_theorem (pre post : List UserSpec) (u : UserSpec) (raises : String → Bool)
    (hpre : ∀ v ∈ pre, raises v.name = false) (hu : raises u.name = true) :
    process_host true (pre ++ u :: post) raises =
      Event.connected ::
        (pre.map (fun v => Event.handleUser v.name) ++
          [Event.handleUser u.name, Event.usersError, Event.closeChannel]) := by
  rw [process_host]
  simp [handleUsers_stopsAtRaise pre u post raises hpre hu]

/-- Witness for C1: alice raises, bob is configured after her. -/
theorem C1_witness :
    process_host true ([] ++ uAlice :: [uBob]) raisesAlice =
      Event.connected ::
        (List.map (fun v => Event.handleUser v.name) ([] : List UserSpec) ++
          [Event.handleUser uAlice.name, Event.usersError, Event.closeChannel]) :=
  C1_theorem [] [uBob] uAlice raisesAlice (by simp) (by decide)

/-- C9: whenever the connection succeeds the host trace ends with the
channel close, whatever the users and whether or not a reconciler raises;
when the connection fails no channel is ever opened or closed. -/
theorem C9_theorem (users : List UserSpec) (raises : String → Bool) :
    (process_host true users raises).getLast? = some Event.closeChannel ∧
    process_host false users raises = [Event.connectFail] := by
  refine ⟨?_, rfl⟩
  show ((Event.connected :: (handleUsers users raises).1 ++
      (if (handleUsers users raises).2 then [Event.usersError] else [])) ++
      [Event.closeChannel]).getLast? = some Event.closeChannel
  exact List.getLast?_concat _

end Bootstrap
